import Mathlib

/-!
Shallow embedding of the coverage aggregation engine of `perlcov`
(`internal/coverage/coverage.go`, `internal/runner/runner.go`, and the CLI
driver), together with proofs of the specification's claims about it.

Counters are Go `int` values, modelled as `Int`.  Go slices become `List`,
Go maps keyed by file path become association lists.
-/

namespace Perlcov

/-- Element-wise sum of two counter vectors; the shorter side behaves as if
extended with zeros (mirrors the slice-extension loops of `mergeRunsGo`). -/
def addVec : List Int → List Int → List Int
  | [], ys => ys
  | xs, [] => xs
  | x :: xs, y :: ys => (x + y) :: addVec xs ys

/-- Element-wise sum of two branch vectors (`[2]int` pairs of true/false hit
counts), the shorter side extended with `(0, 0)` pairs. -/
def addPairVec : List (Int × Int) → List (Int × Int) → List (Int × Int)
  | [], ys => ys
  | xs, [] => xs
  | b :: xs, c :: ys => (b.1 + c.1, b.2 + c.2) :: addPairVec xs ys

/-- Element-wise sum of two condition vectors (one counter vector per
condition position), the shorter side extended with empty vectors. -/
def addCondVec : List (List Int) → List (List Int) → List (List Int)
  | [], ys => ys
  | xs, [] => xs
  | c :: xs, d :: ys => addVec c d :: addCondVec xs ys

/-- `singleRunData`: coverage recorded by one run for one source file. -/
structure SingleRunData where
  File : String
  Statement : List Int
  Branch : List (Int × Int)
  Condition : List (List Int)
  Sub : List Int
deriving DecidableEq

/-- The per-file accumulator `mergedFile` used inside `mergeRunsGo`. -/
structure MergedFile where
  stmt : List Int
  branch : List (Int × Int)
  cond : List (List Int)
  sub : List Int
deriving DecidableEq

def emptyMerged : MergedFile := ⟨[], [], [], []⟩

/-- One iteration of the merge loop of `mergeRunsGo`: extend the accumulated
slices to the run's lengths and add the run's counts element-wise. -/
def applyRun (m : MergedFile) (r : SingleRunData) : MergedFile :=
  { stmt := addVec m.stmt r.Statement
    branch := addPairVec m.branch r.Branch
    cond := addCondVec m.cond r.Condition
    sub := addVec m.sub r.Sub }

/-- Combining two already-merged per-file accumulators (the same additive
operation, used to state grouping-independence of the merge). -/
def combineMerged (m₁ m₂ : MergedFile) : MergedFile :=
  { stmt := addVec m₁.stmt m₂.stmt
    branch := addPairVec m₁.branch m₂.branch
    cond := addCondVec m₁.cond m₂.cond
    sub := addVec m₁.sub m₂.sub }

/-- Merging a sequence of runs for one source file, in arrival order,
starting from the zero accumulator (as `mergeRunsGo` does: the accumulator
for a file starts as zero vectors and every run is added into it). -/
def mergeFile (runs : List SingleRunData) : MergedFile :=
  runs.foldl applyRun emptyMerged

/-- Lookup in the merge map (association list keyed by file path). -/
def lookupMerged : List (String × MergedFile) → String → Option MergedFile
  | [], _ => none
  | (f, m) :: rest, file => if f = file then some m else lookupMerged rest file

/-- Lookup with the zero accumulator as default (a file never seen merges
as all-zero, i.e. it is simply absent from the map). -/
def lookupMergedD (acc : List (String × MergedFile)) (file : String) : MergedFile :=
  (lookupMerged acc file).getD emptyMerged

/-- Store a per-file accumulator in the merge map, replacing an existing
entry for the same file or appending a new one. -/
def updateMerged : List (String × MergedFile) → String → MergedFile → List (String × MergedFile)
  | [], file, m => [(file, m)]
  | (f, m₀) :: rest, file, m =>
    if f = file then (f, m) :: rest else (f, m₀) :: updateMerged rest file m

/-- One step of `mergeRunsGo`'s outer loop body for a single `singleRunData`:
fetch (or create as zero) the file's accumulator and add the run into it. -/
def mergeStep (acc : List (String × MergedFile)) (r : SingleRunData) : List (String × MergedFile) :=
  updateMerged acc r.File (applyRun (lookupMergedD acc r.File) r)

/-- The merge loop of `mergeRunsGo` over all runs (`allRuns` is the list of
per-run-file record lists; the Go code iterates them in order). -/
def mergeAllRuns (allRuns : List (List SingleRunData)) : List (String × MergedFile) :=
  allRuns.flatten.foldl mergeStep []

/-- Number of covered branch arms: each position's true arm and false arm
count independently when their summed hits are positive. -/
def branchCoveredCount : List (Int × Int) → Nat
  | [] => 0
  | b :: t => (if 0 < b.1 then 1 else 0) + ((if 0 < b.2 then 1 else 0) + branchCoveredCount t)

/-- Total condition slots: one per truth-state entry of every position. -/
def condTotalCount (l : List (List Int)) : Nat := (l.map List.length).sum

/-- Covered condition slots: entries with positive summed hits. -/
def condCoveredCount : List (List Int) → Nat
  | [] => 0
  | c :: t => c.countP (fun h => decide (0 < h)) + condCoveredCount t

/-- The covered/total pairs `mergeRunsGo` derives from a file's merged
counter vectors. -/
structure FileCounts where
  stmtCovered : Nat
  stmtTotal : Nat
  branchCovered : Nat
  branchTotal : Nat
  condCovered : Nat
  condTotal : Nat
  subCovered : Nat
  subTotal : Nat
deriving DecidableEq

/-- The counting phase of `mergeRunsGo` (its output loop): statement total is
the merged vector length, a position is covered iff its merged count is
positive; each branch position contributes 2 to total and one per positive
arm to covered; each condition slot contributes 1; each subroutine position
contributes 1. -/
def fileCounts (m : MergedFile) : FileCounts :=
  { stmtCovered := m.stmt.countP (fun h => decide (0 < h))
    stmtTotal := m.stmt.length
    branchCovered := branchCoveredCount m.branch
    branchTotal := 2 * m.branch.length
    condCovered := condCoveredCount m.cond
    condTotal := condTotalCount m.cond
    subCovered := m.sub.countP (fun h => decide (0 < h))
    subTotal := m.sub.length }

/-- Line resolution of `mergeRunsGo`'s output loop: position `i` maps to the
structure file's `i`-th line number when present, else to `i + 1`. -/
def resolveLine (stmtLines : List Int) (i : Nat) : Int :=
  match stmtLines[i]? with
  | some l => l
  | none => (i : Int) + 1

/-- Uncovered lines of a merged statement vector: the resolved lines of all
positions whose merged count is not positive (the Go code stores them as
keys of a map, i.e. as a set; we keep the generated list and reason about
membership). -/
def uncoveredLines (stmt : List Int) (stmtLines : List Int) : List Int :=
  (List.range stmt.length).filterMap fun i =>
    if 0 < stmt.getD i 0 then none else some (resolveLine stmtLines i)

/-- `formatCoverage`: the rendered per-file cell is `"n/a"` when the total is
zero (modelled as `none`); otherwise the percentage `covered/total*100`
(the Go code renders the value as `"%.1f%%"`; we keep the exact rational). -/
def formatCoverage (covered total : Nat) : Option Rat :=
  if total = 0 then none else some ((covered : Rat) / (total : Rat) * 100)

/-- `covered/total*100`, the percentage formula used throughout the report
code (Go computes it in `float64`; we keep the exact rational). -/
def pct (covered total : Nat) : Rat := (covered : Rat) / (total : Rat) * 100

/-- `StatementCoverage` (the internal `lines` map is kept as the list of its
keys: the line numbers recorded as uncovered by the parse phase). -/
structure StatementCoverage where
  Covered : Nat
  Total : Nat
  Percent : Rat
  Uncovered : List Int
  lines : List Int
deriving DecidableEq

structure BranchCoverage where
  Covered : Nat
  Total : Nat
  Percent : Rat
deriving DecidableEq

structure ConditionCoverage where
  Covered : Nat
  Total : Nat
  Percent : Rat
deriving DecidableEq

structure SubroutineCoverage where
  Covered : Nat
  Total : Nat
  Percent : Rat
deriving DecidableEq

structure CoverageSummary where
  Statement : Rat
  Branch : Rat
  Condition : Rat
  Subroutine : Rat
  Combined : Rat
  TotalFiles : Nat
  CoveredFiles : Nat
  Normalized : Bool
  ConditionsAbsorbed : Bool
  SubroutinesAbsorbed : Bool
deriving DecidableEq

structure FileCoverage where
  Path : String
  Statements : StatementCoverage
  Branches : BranchCoverage
  Conditions : ConditionCoverage
  Subroutines : SubroutineCoverage
deriving DecidableEq

/-- `Report` (the Go `Files` map is modelled as a list of its values; every
computation below is per-file or a commutative accumulation, so the map
iteration order is immaterial). -/
structure Report where
  Files : List FileCoverage
  Summary : CoverageSummary
deriving DecidableEq

/-- Insertion of an `Int` into a sorted list (ascending). -/
def insertSorted (x : Int) : List Int → List Int
  | [] => [x]
  | y :: ys => if x ≤ y then x :: y :: ys else y :: insertSorted x ys

/-- `sort.Ints`. -/
def sortInts (l : List Int) : List Int := l.foldr insertSorted []

def sumStmtTotal (files : List FileCoverage) : Nat :=
  (files.map (fun fc => fc.Statements.Total)).sum
def sumStmtCovered (files : List FileCoverage) : Nat :=
  (files.map (fun fc => fc.Statements.Covered)).sum
def sumBranchTotal (files : List FileCoverage) : Nat :=
  (files.map (fun fc => fc.Branches.Total)).sum
def sumBranchCovered (files : List FileCoverage) : Nat :=
  (files.map (fun fc => fc.Branches.Covered)).sum
def sumCondTotal (files : List FileCoverage) : Nat :=
  (files.map (fun fc => fc.Conditions.Total)).sum
def sumCondCovered (files : List FileCoverage) : Nat :=
  (files.map (fun fc => fc.Conditions.Covered)).sum
def sumSubTotal (files : List FileCoverage) : Nat :=
  (files.map (fun fc => fc.Subroutines.Total)).sum
def sumSubCovered (files : List FileCoverage) : Nat :=
  (files.map (fun fc => fc.Subroutines.Covered)).sum

/-- The per-file part of `calculateSummary`: rebuild the sorted uncovered
line list from the `lines` map and set each category's percentage when its
total is positive (otherwise the field keeps its previous value). -/
def calcFilePercents (fc : FileCoverage) : FileCoverage :=
  { fc with
    Statements := { fc.Statements with
      Uncovered := sortInts fc.Statements.lines
      Percent := if 0 < fc.Statements.Total then
          pct fc.Statements.Covered fc.Statements.Total
        else fc.Statements.Percent }
    Branches := { fc.Branches with
      Percent := if 0 < fc.Branches.Total then
          pct fc.Branches.Covered fc.Branches.Total
        else fc.Branches.Percent }
    Conditions := { fc.Conditions with
      Percent := if 0 < fc.Conditions.Total then
          pct fc.Conditions.Covered fc.Conditions.Total
        else fc.Conditions.Percent }
    Subroutines := { fc.Subroutines with
      Percent := if 0 < fc.Subroutines.Total then
          pct fc.Subroutines.Covered fc.Subroutines.Total
        else fc.Subroutines.Percent } }

/-- `calculateSummary`: per-file percentages plus pooled summary percentages
(sum of covered over sum of total across all files, times 100), the file
counters, and the combined percentage over conditions plus statements. -/
def calculateSummary (report : Report) : Report :=
  let files := report.Files.map calcFilePercents
  let totalStmt := sumStmtTotal files
  let coveredStmt := sumStmtCovered files
  let totalBranch := sumBranchTotal files
  let coveredBranch := sumBranchCovered files
  let totalCond := sumCondTotal files
  let coveredCond := sumCondCovered files
  let totalSub := sumSubTotal files
  let coveredSub := sumSubCovered files
  { Files := files
    Summary := { report.Summary with
      Statement := if 0 < totalStmt then pct coveredStmt totalStmt
        else report.Summary.Statement
      Branch := if 0 < totalBranch then pct coveredBranch totalBranch
        else report.Summary.Branch
      Condition := if 0 < totalCond then pct coveredCond totalCond
        else report.Summary.Condition
      Subroutine := if 0 < totalSub then pct coveredSub totalSub
        else report.Summary.Subroutine
      Combined := if 0 < totalCond + totalStmt then
          pct (coveredCond + coveredStmt) (totalCond + totalStmt)
        else report.Summary.Combined
      TotalFiles := report.Summary.TotalFiles + files.length
      CoveredFiles := report.Summary.CoveredFiles
        + files.countP (fun fc => decide (0 < fc.Statements.Covered)) } }

/-- `recalculateSummary`: reset every summary percentage to zero, then set
each one from the pooled sums when its total is positive. -/
def recalculateSummary (report : Report) : Report :=
  let totalStmt := sumStmtTotal report.Files
  let coveredStmt := sumStmtCovered report.Files
  let totalBranch := sumBranchTotal report.Files
  let coveredBranch := sumBranchCovered report.Files
  let totalCond := sumCondTotal report.Files
  let coveredCond := sumCondCovered report.Files
  let totalSub := sumSubTotal report.Files
  let coveredSub := sumSubCovered report.Files
  { report with
    Summary := { report.Summary with
      Statement := if 0 < totalStmt then pct coveredStmt totalStmt else 0
      Branch := if 0 < totalBranch then pct coveredBranch totalBranch else 0
      Condition := if 0 < totalCond then pct coveredCond totalCond else 0
      Subroutine := if 0 < totalSub then pct coveredSub totalSub else 0
      Combined := if 0 < totalCond + totalStmt then
          pct (coveredCond + coveredStmt) (totalCond + totalStmt)
        else 0 } }

/-- `NormalizationConfig`. `Modes` keeps the Go mode strings. -/
structure NormalizationConfig where
  Modes : List String
  ConditionsToBranch : Bool
  SubroutinesToStmt : Bool
  SonarQubeStyle : Bool
  SimpleMode : Bool
deriving DecidableEq

def emptyNormalizationConfig : NormalizationConfig :=
  { Modes := [], ConditionsToBranch := false, SubroutinesToStmt := false,
    SonarQubeStyle := false, SimpleMode := false }

/-- ASCII whitespace as recognized by `strings.TrimSpace`. -/
def isSpaceGo (c : Char) : Bool :=
  c = ' ' || c = '\t' || c = '\n' || c = '\x0b' || c = '\x0c' || c = '\r'

/-- `strings.TrimSpace` (on the ASCII whitespace actually occurring in
mode lists). -/
def trimSpace (l : List Char) : List Char :=
  ((l.dropWhile isSpaceGo).reverse.dropWhile isSpaceGo).reverse

/-- `strings.Split(input, ",")`. -/
def splitComma : List Char → List (List Char)
  | [] => [[]]
  | c :: rest =>
    if c = ',' then [] :: splitComma rest
    else
      match splitComma rest with
      | [] => [[c]]
      | t :: ts => (c :: t) :: ts

/-- One mode token of `ParseNormalizationModes`: trim it and either set the
corresponding flags or fail with the Go error message. -/
def parseMode (config : NormalizationConfig) (mode : String) :
    Except String NormalizationConfig :=
  let mode := String.mk (trimSpace mode.data)
  if mode = "conditions-to-branches" then
    .ok { config with
          ConditionsToBranch := true,
          Modes := config.Modes ++ ["conditions-to-branches"] }
  else if mode = "subroutines-to-statements" then
    .ok { config with
          SubroutinesToStmt := true,
          Modes := config.Modes ++ ["subroutines-to-statements"] }
  else if mode = "sonarqube" then
    .ok { config with
          SonarQubeStyle := true, ConditionsToBranch := true,
          Modes := config.Modes ++ ["sonarqube"] }
  else if mode = "simple" then
    .ok { config with
          SimpleMode := true,
          Modes := config.Modes ++ ["simple"] }
  else
    .error ("unknown normalization mode: " ++ mode
      ++ " (valid: conditions-to-branches, subroutines-to-statements, sonarqube, simple)")

def parseModesList : NormalizationConfig → List String → Except String NormalizationConfig
  | config, [] => .ok config
  | config, m :: rest =>
    match parseMode config m with
    | .ok c => parseModesList c rest
    | .error e => .error e

/-- `ParseNormalizationModes`: empty input yields the empty configuration;
otherwise the comma-separated tokens are processed in order and the first
unknown one aborts with an error. -/
def ParseNormalizationModes (input : String) : Except String NormalizationConfig :=
  if input = "" then .ok emptyNormalizationConfig
  else parseModesList emptyNormalizationConfig ((splitComma input.data).map String.mk)

/-- The conditions→branches step of `Normalize` on one file. -/
def condToBranchFile (fc : FileCoverage) : FileCoverage :=
  let total := fc.Branches.Total + fc.Conditions.Total
  let covered := fc.Branches.Covered + fc.Conditions.Covered
  { fc with
    Branches := {
      Covered := covered, Total := total,
      Percent := if 0 < total then pct covered total else fc.Branches.Percent },
    Conditions := { Covered := 0, Total := 0, Percent := 0 } }

/-- The subroutines→statements step of `Normalize` on one file. -/
def subToStmtFile (fc : FileCoverage) : FileCoverage :=
  let total := fc.Statements.Total + fc.Subroutines.Total
  let covered := fc.Statements.Covered + fc.Subroutines.Covered
  { fc with
    Statements := { fc.Statements with
      Covered := covered, Total := total,
      Percent := if 0 < total then pct covered total else fc.Statements.Percent },
    Subroutines := { Covered := 0, Total := 0, Percent := 0 } }

/-- The simple-mode step of `Normalize` on one file: zero every
non-statement metric. -/
def simpleFile (fc : FileCoverage) : FileCoverage :=
  { fc with
    Branches := { Covered := 0, Total := 0, Percent := 0 },
    Conditions := { Covered := 0, Total := 0, Percent := 0 },
    Subroutines := { Covered := 0, Total := 0, Percent := 0 } }

/-- `Report.Normalize`: no-op for an empty mode list (the Go code also
treats a nil config pointer this way); otherwise mark the report normalized,
apply the requested absorptions in order, and recalculate the summary. -/
def Normalize (report : Report) (config : NormalizationConfig) : Report :=
  if config.Modes = [] then report
  else
    let report := { report with
      Summary := { report.Summary with Normalized := true } }
    let report := if config.ConditionsToBranch then
        { Files := report.Files.map condToBranchFile,
          Summary := { report.Summary with ConditionsAbsorbed := true } }
      else report
    let report := if config.SubroutinesToStmt then
        { Files := report.Files.map subToStmtFile,
          Summary := { report.Summary with SubroutinesAbsorbed := true } }
      else report
    let report := if config.SimpleMode then
        { Files := report.Files.map simpleFile,
          Summary := { report.Summary with
            ConditionsAbsorbed := true,
            SubroutinesAbsorbed := true } }
      else report
    recalculateSummary report

/-- Events of the CLI driver `runCoverage` that matter for ordering of test
execution against normalization-mode validation. -/
inductive RunEvent where
  | testExecuted (file : String)
  | fatalError (msg : String)
  | reportPrinted
deriving DecidableEq

/-- Trace of `runCoverage`'s control flow, projected onto test execution,
fatal errors and report printing (on the path where test discovery, merging
and coverage parsing succeed): Devel::Cover is checked first, then the test
files are discovered and all of them are executed, the coverage report is
parsed, and only then is a non-empty `--normalize` value parsed — an
invalid value aborts at that point. -/
def runCoverageTrace (develCoverOk : Bool) (testFiles : List String)
    (normalize : String) : List RunEvent :=
  if develCoverOk = false then [RunEvent.fatalError "perl with Devel::Cover not usable"]
  else if testFiles = [] then [RunEvent.fatalError "no test files found"]
  else
    testFiles.map RunEvent.testExecuted ++
      (if normalize = "" then [RunEvent.reportPrinted]
       else
         match ParseNormalizationModes normalize with
         | .error e => [RunEvent.fatalError ("invalid --normalize value: " ++ e)]
         | .ok _ => [RunEvent.reportPrinted])

/-- Drop trailing path separators (`filepath.Base`, step 1). -/
def dropTrailingSep (l : List Char) : List Char :=
  ((l.reverse).dropWhile (fun c => c = '/')).reverse

/-- Keep only the characters after the last path separator
(`filepath.Base`, step 2). -/
def afterLastSep (l : List Char) : List Char :=
  ((l.reverse).takeWhile (fun c => c ≠ '/')).reverse

/-- `filepath.Base` on a Unix path: `"."` for the empty path, `"/"` for a
path of only separators, otherwise the last path element. -/
def filepathBase (path : String) : String :=
  if path = "" then "."
  else
    let p := dropTrailingSep path.data
    if p = [] then "/" else String.mk (afterLastSep p)

/-- Does the basename end in `".t"`? (`strings.HasSuffix(base, ".t")`). -/
def endsWithT (l : List Char) : Bool :=
  l.reverse.take 2 = ['t', '.']

def digitStart : List Char → Bool
  | [] => false
  | c :: _ => '0' ≤ c && c ≤ '9'

def upperStart : List Char → Bool
  | [] => false
  | c :: _ => 'A' ≤ c && c ≤ 'Z'

/-- Truncate at the first underscore
(`name = name[:strings.Index(name, "_")]`). -/
def takeUntilUnderscore : List Char → List Char
  | [] => []
  | c :: rest => if c = '_' then [] else c :: takeUntilUnderscore rest

/-- Replace every hyphen by `::` (`strings.ReplaceAll(name, "-", "::")`). -/
def replaceHyphens : List Char → List Char
  | [] => []
  | c :: rest =>
    if c = '-' then ':' :: ':' :: replaceHyphens rest
    else c :: replaceHyphens rest

/-- The body of `extractModuleFromTestFile` after the basename has been
taken: require the `".t"` suffix, reject a leading digit, truncate at the
first underscore, require a leading uppercase letter, turn hyphens into
`::`. -/
def extractCore (base : List Char) : List Char :=
  if endsWithT base then
    let name := base.take (base.length - 2)
    if digitStart name then []
    else
      let name := takeUntilUnderscore name
      if upperStart name then replaceHyphens name else []
  else []

/-- `extractModuleFromTestFile`: derive a module name from a test file
name, or return `""` when the filename convention does not apply. -/
def extractModuleFromTestFile (testFile : String) : String :=
  String.mk (extractCore (filepathBase testFile).data)

/-! ### Algebra of the counter-vector sums -/

theorem addVec_nil_right (xs : List Int) : addVec xs [] = xs := by
  cases xs <;> rfl

theorem addVec_comm (xs ys : List Int) : addVec xs ys = addVec ys xs := by
  induction xs generalizing ys with
  | nil => cases ys <;> rfl
  | cons x xs ih =>
    cases ys with
    | nil => rfl
    | cons y ys => simp [addVec, ih, Int.add_comm]

theorem addVec_assoc (xs ys zs : List Int) :
    addVec (addVec xs ys) zs = addVec xs (addVec ys zs) := by
  induction xs generalizing ys zs with
  | nil => simp [addVec]
  | cons x xs ih =>
    cases ys with
    | nil => simp [addVec, addVec_nil_right]
    | cons y ys =>
      cases zs with
      | nil => simp [addVec_nil_right]
      | cons z zs => simp [addVec, ih, Int.add_assoc]

theorem length_addVec (xs ys : List Int) :
    (addVec xs ys).length = max xs.length ys.length := by
  induction xs generalizing ys with
  | nil => simp [addVec]
  | cons x xs ih =>
    cases ys with
    | nil => simp [addVec]
    | cons y ys => simp [addVec, ih, Nat.succ_max_succ]

theorem getD_addVec (xs ys : List Int) (i : Nat) :
    (addVec xs ys).getD i 0 = xs.getD i 0 + ys.getD i 0 := by
  induction xs generalizing ys i with
  | nil => cases ys <;> simp [addVec]
  | cons x xs ih =>
    cases ys with
    | nil => simp [addVec]
    | cons y ys =>
      cases i with
      | zero => simp [addVec]
      | succ i => simpa [addVec] using ih ys i

theorem addPairVec_nil_right (xs : List (Int × Int)) : addPairVec xs [] = xs := by
  cases xs <;> rfl

theorem addPairVec_comm (xs ys : List (Int × Int)) :
    addPairVec xs ys = addPairVec ys xs := by
  induction xs generalizing ys with
  | nil => cases ys <;> rfl
  | cons x xs ih =>
    cases ys with
    | nil => rfl
    | cons y ys => simp [addPairVec, ih, Int.add_comm]

theorem addPairVec_assoc (xs ys zs : List (Int × Int)) :
    addPairVec (addPairVec xs ys) zs = addPairVec xs (addPairVec ys zs) := by
  induction xs generalizing ys zs with
  | nil => simp [addPairVec]
  | cons x xs ih =>
    cases ys with
    | nil => simp [addPairVec, addPairVec_nil_right]
    | cons y ys =>
      cases zs with
      | nil => simp [addPairVec_nil_right]
      | cons z zs => simp [addPairVec, ih, Int.add_assoc]

theorem length_addPairVec (xs ys : List (Int × Int)) :
    (addPairVec xs ys).length = max xs.length ys.length := by
  induction xs generalizing ys with
  | nil => simp [addPairVec]
  | cons x xs ih =>
    cases ys with
    | nil => simp [addPairVec]
    | cons y ys => simp [addPairVec, ih, Nat.succ_max_succ]

theorem getD_addPairVec (xs ys : List (Int × Int)) (i : Nat) :
    (addPairVec xs ys).getD i (0, 0) =
      ((xs.getD i (0, 0)).1 + (ys.getD i (0, 0)).1,
       (xs.getD i (0, 0)).2 + (ys.getD i (0, 0)).2) := by
  induction xs generalizing ys i with
  | nil => cases ys <;> simp [addPairVec]
  | cons x xs ih =>
    cases ys with
    | nil => simp [addPairVec]
    | cons y ys =>
      cases i with
      | zero => simp [addPairVec]
      | succ i => simpa [addPairVec] using ih ys i

theorem addCondVec_nil_right (xs : List (List Int)) : addCondVec xs [] = xs := by
  cases xs <;> rfl

theorem addCondVec_comm (xs ys : List (List Int)) :
    addCondVec xs ys = addCondVec ys xs := by
  induction xs generalizing ys with
  | nil => cases ys <;> rfl
  | cons x xs ih =>
    cases ys with
    | nil => rfl
    | cons y ys => simp [addCondVec, ih, addVec_comm]

theorem addCondVec_assoc (xs ys zs : List (List Int)) :
    addCondVec (addCondVec xs ys) zs = addCondVec xs (addCondVec ys zs) := by
  induction xs generalizing ys zs with
  | nil => simp [addCondVec]
  | cons x xs ih =>
    cases ys with
    | nil => simp [addCondVec, addCondVec_nil_right]
    | cons y ys =>
      cases zs with
      | nil => simp [addCondVec_nil_right]
      | cons z zs => simp [addCondVec, ih, addVec_assoc]

theorem length_addCondVec (xs ys : List (List Int)) :
    (addCondVec xs ys).length = max xs.length ys.length := by
  induction xs generalizing ys with
  | nil => simp [addCondVec]
  | cons x xs ih =>
    cases ys with
    | nil => simp [addCondVec]
    | cons y ys => simp [addCondVec, ih, Nat.succ_max_succ]

theorem getD_addCondVec (xs ys : List (List Int)) (i : Nat) :
    (addCondVec xs ys).getD i [] = addVec (xs.getD i []) (ys.getD i []) := by
  induction xs generalizing ys i with
  | nil => cases ys <;> simp [addCondVec, addVec]
  | cons x xs ih =>
    cases ys with
    | nil => simp [addCondVec, addVec_nil_right]
    | cons y ys =>
      cases i with
      | zero => simp [addCondVec]
      | succ i => simpa [addCondVec] using ih ys i

/-! ### Algebra of the per-file merge -/

theorem combineMerged_empty_left (m : MergedFile) :
    combineMerged emptyMerged m = m := by
  simp [combineMerged, emptyMerged, addVec, addPairVec, addCondVec]

theorem combineMerged_empty_right (m : MergedFile) :
    combineMerged m emptyMerged = m := by
  simp [combineMerged, emptyMerged, addVec_nil_right, addPairVec_nil_right,
    addCondVec_nil_right]

theorem combineMerged_comm (m₁ m₂ : MergedFile) :
    combineMerged m₁ m₂ = combineMerged m₂ m₁ := by
  simp only [combineMerged, addVec_comm m₁.stmt m₂.stmt,
    addPairVec_comm m₁.branch m₂.branch, addCondVec_comm m₁.cond m₂.cond,
    addVec_comm m₁.sub m₂.sub]

theorem combineMerged_assoc (m₁ m₂ m₃ : MergedFile) :
    combineMerged (combineMerged m₁ m₂) m₃ = combineMerged m₁ (combineMerged m₂ m₃) := by
  simp [combineMerged, addVec_assoc, addPairVec_assoc, addCondVec_assoc]

/-- The single-run record seen as a merged accumulator. -/
def toMerged (r : SingleRunData) : MergedFile :=
  ⟨r.Statement, r.Branch, r.Condition, r.Sub⟩

theorem applyRun_eq_combine (m : MergedFile) (r : SingleRunData) :
    applyRun m r = combineMerged m (toMerged r) := rfl

theorem applyRun_right_comm (m : MergedFile) (r₁ r₂ : SingleRunData) :
    applyRun (applyRun m r₁) r₂ = applyRun (applyRun m r₂) r₁ := by
  simp only [applyRun_eq_combine, combineMerged_assoc,
    combineMerged_comm (toMerged r₁) (toMerged r₂)]

instance : RightCommutative applyRun := ⟨fun m r₁ r₂ => applyRun_right_comm m r₁ r₂⟩

theorem foldl_applyRun_eq (m : MergedFile) (l : List SingleRunData) :
    l.foldl applyRun m = combineMerged m (mergeFile l) := by
  induction l generalizing m with
  | nil => simp [mergeFile, combineMerged_empty_right]
  | cons r l ih =>
    have h2 : mergeFile (r :: l) = combineMerged (applyRun emptyMerged r) (mergeFile l) :=
      ih (applyRun emptyMerged r)
    calc (r :: l).foldl applyRun m
        = combineMerged (applyRun m r) (mergeFile l) := ih (applyRun m r)
      _ = combineMerged m (mergeFile (r :: l)) := by
          rw [h2, applyRun_eq_combine, applyRun_eq_combine, combineMerged_empty_left,
            combineMerged_assoc]

theorem mergeFile_append (l₁ l₂ : List SingleRunData) :
    mergeFile (l₁ ++ l₂) = combineMerged (mergeFile l₁) (mergeFile l₂) := by
  simp only [mergeFile, List.foldl_append]
  exact foldl_applyRun_eq (mergeFile l₁) l₂

theorem mergeFile_perm {l₁ l₂ : List SingleRunData} (p : l₁.Perm l₂) :
    mergeFile l₁ = mergeFile l₂ :=
  p.foldl_eq emptyMerged

theorem applyRun_empty (r : SingleRunData) : applyRun emptyMerged r = toMerged r := by
  simp [applyRun, emptyMerged, toMerged, addVec, addPairVec, addCondVec]

theorem mergeFile_cons (r : SingleRunData) (rs : List SingleRunData) :
    mergeFile (r :: rs) = combineMerged (toMerged r) (mergeFile rs) := by
  have h := foldl_applyRun_eq (applyRun emptyMerged r) rs
  simpa [mergeFile, applyRun_empty] using h

/-! ### The merge map groups runs by file -/

theorem lookupMerged_updateMerged_same (acc : List (String × MergedFile))
    (file : String) (m : MergedFile) :
    lookupMerged (updateMerged acc file m) file = some m := by
  induction acc with
  | nil => simp [updateMerged, lookupMerged]
  | cons p rest ih =>
    obtain ⟨f, m₀⟩ := p
    simp only [updateMerged]
    by_cases h : f = file
    · rw [if_pos h]
      simp only [lookupMerged]
      rw [if_pos h]
    · rw [if_neg h]
      simp only [lookupMerged]
      rw [if_neg h]
      exact ih

theorem lookupMerged_updateMerged_other (acc : List (String × MergedFile))
    (file g : String) (m : MergedFile) (hne : g ≠ file) :
    lookupMerged (updateMerged acc file m) g = lookupMerged acc g := by
  induction acc with
  | nil =>
    simp only [updateMerged, lookupMerged]
    rw [if_neg (fun h : file = g => hne h.symm)]
  | cons p rest ih =>
    obtain ⟨f, m₀⟩ := p
    simp only [updateMerged]
    by_cases h : f = file
    · rw [if_pos h]
      simp only [lookupMerged]
      rw [if_neg (fun hg : f = g => hne (hg ▸ h)), if_neg (fun hg : f = g => hne (hg ▸ h))]
    · rw [if_neg h]
      simp only [lookupMerged]
      by_cases hg : f = g
      · rw [if_pos hg, if_pos hg]
      · rw [if_neg hg, if_neg hg]
        exact ih

theorem lookupMergedD_mergeStep (acc : List (String × MergedFile))
    (r : SingleRunData) (file : String) :
    lookupMergedD (mergeStep acc r) file =
      if r.File = file then applyRun (lookupMergedD acc file) r
      else lookupMergedD acc file := by
  by_cases h : r.File = file
  · subst h
    simp [mergeStep, lookupMergedD, lookupMerged_updateMerged_same]
  · have : file ≠ r.File := fun hh => h hh.symm
    simp [mergeStep, lookupMergedD, lookupMerged_updateMerged_other _ _ _ _ this, h]

/-- The merge loop of `mergeRunsGo` computes, for every file, exactly the
fold of `applyRun` over the subsequence of run records for that file. -/
theorem lookupMergedD_foldl_mergeStep (rs : List SingleRunData)
    (acc : List (String × MergedFile)) (file : String) :
    lookupMergedD (rs.foldl mergeStep acc) file =
      (rs.filter (fun r => r.File = file)).foldl applyRun (lookupMergedD acc file) := by
  induction rs generalizing acc with
  | nil => rfl
  | cons r rs ih =>
    rw [List.foldl_cons, ih (mergeStep acc r), lookupMergedD_mergeStep]
    by_cases h : r.File = file
    · simp [List.filter_cons, h]
    · simp [List.filter_cons, h]

/-- Per file, `mergeRunsGo`'s merge map holds the merge of exactly that
file's run records, in arrival order. -/
theorem lookupMergedD_mergeAllRuns (allRuns : List (List SingleRunData)) (file : String) :
    lookupMergedD (mergeAllRuns allRuns) file =
      mergeFile (allRuns.flatten.filter (fun r => r.File = file)) := by
  have h := lookupMergedD_foldl_mergeStep allRuns.flatten [] file
  simpa [mergeAllRuns, mergeFile, lookupMergedD, lookupMerged] using h

/-! ### Positional sums across runs -/

/-- Summed statement hits at position `i` across a list of runs. -/
def sumStmtHits (runs : List SingleRunData) (i : Nat) : Int :=
  (runs.map (fun r => r.Statement.getD i 0)).sum

/-- Summed true-arm hits at branch position `i` across a list of runs. -/
def sumBranchTrue (runs : List SingleRunData) (i : Nat) : Int :=
  (runs.map (fun r => (r.Branch.getD i (0, 0)).1)).sum

/-- Summed false-arm hits at branch position `i` across a list of runs. -/
def sumBranchFalse (runs : List SingleRunData) (i : Nat) : Int :=
  (runs.map (fun r => (r.Branch.getD i (0, 0)).2)).sum

/-- Summed subroutine hits at position `i` across a list of runs. -/
def sumSubHits (runs : List SingleRunData) (i : Nat) : Int :=
  (runs.map (fun r => r.Sub.getD i 0)).sum

/-- Summed condition hits at position `i`, truth-state slot `j`. -/
def sumCondHits (runs : List SingleRunData) (i j : Nat) : Int :=
  (runs.map (fun r => (r.Condition.getD i []).getD j 0)).sum

theorem getD_mergeFile_stmt (runs : List SingleRunData) (i : Nat) :
    (mergeFile runs).stmt.getD i 0 = sumStmtHits runs i := by
  induction runs with
  | nil => simp [mergeFile, emptyMerged, sumStmtHits]
  | cons r rs ih =>
    rw [mergeFile_cons]
    simp only [combineMerged, toMerged]
    rw [getD_addVec, ih]
    simp [sumStmtHits]

theorem getD_mergeFile_branch (runs : List SingleRunData) (i : Nat) :
    (mergeFile runs).branch.getD i (0, 0) =
      (sumBranchTrue runs i, sumBranchFalse runs i) := by
  induction runs with
  | nil => simp [mergeFile, emptyMerged, sumBranchTrue, sumBranchFalse]
  | cons r rs ih =>
    rw [mergeFile_cons]
    simp only [combineMerged, toMerged]
    rw [getD_addPairVec, ih]
    simp [sumBranchTrue, sumBranchFalse]

theorem getD_mergeFile_sub (runs : List SingleRunData) (i : Nat) :
    (mergeFile runs).sub.getD i 0 = sumSubHits runs i := by
  induction runs with
  | nil => simp [mergeFile, emptyMerged, sumSubHits]
  | cons r rs ih =>
    rw [mergeFile_cons]
    simp only [combineMerged, toMerged]
    rw [getD_addVec, ih]
    simp [sumSubHits]

theorem getD_mergeFile_cond (runs : List SingleRunData) (i j : Nat) :
    ((mergeFile runs).cond.getD i []).getD j 0 = sumCondHits runs i j := by
  induction runs with
  | nil => simp [mergeFile, emptyMerged, sumCondHits]
  | cons r rs ih =>
    rw [mergeFile_cons]
    simp only [combineMerged, toMerged]
    rw [getD_addCondVec, getD_addVec, ih]
    simp [sumCondHits]

theorem length_mergeFile_stmt (runs : List SingleRunData) :
    (mergeFile runs).stmt.length = (runs.map (fun r => r.Statement.length)).foldr max 0 := by
  induction runs with
  | nil => simp [mergeFile, emptyMerged]
  | cons r rs ih =>
    rw [mergeFile_cons]
    simp [combineMerged, toMerged, length_addVec, ih]

theorem length_mergeFile_branch (runs : List SingleRunData) :
    (mergeFile runs).branch.length = (runs.map (fun r => r.Branch.length)).foldr max 0 := by
  induction runs with
  | nil => simp [mergeFile, emptyMerged]
  | cons r rs ih =>
    rw [mergeFile_cons]
    simp [combineMerged, toMerged, length_addPairVec, ih]

theorem length_mergeFile_sub (runs : List SingleRunData) :
    (mergeFile runs).sub.length = (runs.map (fun r => r.Sub.length)).foldr max 0 := by
  induction runs with
  | nil => simp [mergeFile, emptyMerged]
  | cons r rs ih =>
    rw [mergeFile_cons]
    simp [combineMerged, toMerged, length_addVec, ih]

theorem length_mergeFile_cond (runs : List SingleRunData) :
    (mergeFile runs).cond.length = (runs.map (fun r => r.Condition.length)).foldr max 0 := by
  induction runs with
  | nil => simp [mergeFile, emptyMerged]
  | cons r rs ih =>
    rw [mergeFile_cons]
    simp [combineMerged, toMerged, length_addCondVec, ih]

/-! ### Counting as a function of the positional values -/

theorem countP_eq_countP_range (p : Int → Bool) (l : List Int) :
    l.countP p = (List.range l.length).countP (fun i => p (l.getD i 0)) := by
  induction l with
  | nil => simp
  | cons x t ih =>
    rw [List.countP_cons, List.length_cons, List.range_succ_eq_map,
      List.countP_cons, List.countP_map]
    have : ((fun i => p ((x :: t).getD i 0)) ∘ Nat.succ) = fun i => p (t.getD i 0) := by
      funext i
      simp [Function.comp, List.getD_cons_succ]
    rw [this, List.getD_cons_zero, ih, Nat.add_comm]

theorem branchCoveredCount_eq_range (l : List (Int × Int)) :
    branchCoveredCount l =
      ((List.range l.length).map (fun i =>
        (if 0 < (l.getD i (0, 0)).1 then 1 else 0)
          + (if 0 < (l.getD i (0, 0)).2 then 1 else 0))).sum := by
  induction l with
  | nil => simp [branchCoveredCount]
  | cons b t ih =>
    rw [branchCoveredCount, List.length_cons, List.range_succ_eq_map, List.map_cons,
      List.sum_cons, List.map_map]
    have : ((fun i =>
        (if 0 < ((b :: t).getD i (0, 0)).1 then 1 else 0)
          + (if 0 < ((b :: t).getD i (0, 0)).2 then 1 else 0)) ∘ Nat.succ) =
        fun i => (if 0 < (t.getD i (0, 0)).1 then 1 else 0)
          + (if 0 < (t.getD i (0, 0)).2 then 1 else 0) := by
      funext i
      simp [Function.comp, List.getD_cons_succ]
    rw [this, List.getD_cons_zero, ih, Nat.add_assoc]

theorem branchCoveredCount_le (l : List (Int × Int)) :
    branchCoveredCount l ≤ 2 * l.length := by
  induction l with
  | nil => simp [branchCoveredCount]
  | cons b t ih =>
    rw [branchCoveredCount, List.length_cons]
    have h1 : (if 0 < b.1 then 1 else 0) ≤ 1 := by split <;> omega
    have h2 : (if 0 < b.2 then 1 else 0) ≤ 1 := by split <;> omega
    omega

theorem condCoveredCount_le (l : List (List Int)) :
    condCoveredCount l ≤ condTotalCount l := by
  induction l with
  | nil => simp [condCoveredCount, condTotalCount]
  | cons c t ih =>
    rw [condCoveredCount, condTotalCount, List.map_cons, List.sum_cons]
    have := List.countP_le_length (fun h => decide (0 < h)) (l := c)
    simp only [condTotalCount] at ih
    omega

theorem getD_nonneg {L : List Int} (h : ∀ x ∈ L, 0 ≤ x) (i : Nat) : 0 ≤ L.getD i 0 := by
  rw [List.getD_eq_getElem?_getD]
  cases hL : L[i]? with
  | none => simp
  | some v => simpa using h v (List.getElem?_mem hL)

theorem sumStmtHits_nonneg {runs : List SingleRunData}
    (h : ∀ r ∈ runs, ∀ x ∈ r.Statement, 0 ≤ x) (i : Nat) :
    0 ≤ sumStmtHits runs i := by
  refine List.sum_nonneg ?_
  intro x hx
  obtain ⟨r, hr, rfl⟩ := List.mem_map.mp hx
  exact getD_nonneg (h r hr) i

/-! ### The pair of concrete runs used in the specification's examples -/

/-- First example run: statement hits `[1,0]`, branch pair `(2,0)`. -/
def runA : SingleRunData :=
  { File := "lib/App.pm", Statement := [1, 0], Branch := [(2, 0)]
    Condition := [], Sub := [] }

/-- Second example run: statement hits `[0,2]`, branch pair `(0,1)`. -/
def runB : SingleRunData :=
  { File := "lib/App.pm", Statement := [0, 2], Branch := [(0, 1)]
    Condition := [], Sub := [] }

/-! ### Claims about the merge -/

/-- C1: the coverage merge is commutative and associative: permuting the
per-run records and regrouping them into two separately merged halves
yields identical per-file covered/total counts in every category. -/
theorem claim_C1_merge_comm_assoc
    (A B R₁ R₂ : List (List SingleRunData)) (hperm : A.Perm B) (file : String) :
    fileCounts (lookupMergedD (mergeAllRuns A) file) =
      fileCounts (lookupMergedD (mergeAllRuns B) file) ∧
    fileCounts (lookupMergedD (mergeAllRuns (R₁ ++ R₂)) file) =
      fileCounts (combineMerged (lookupMergedD (mergeAllRuns R₁) file)
        (lookupMergedD (mergeAllRuns R₂) file)) := by
  constructor
  · rw [lookupMergedD_mergeAllRuns, lookupMergedD_mergeAllRuns]
    exact congrArg fileCounts (mergeFile_perm (hperm.flatten.filter _))
  · rw [lookupMergedD_mergeAllRuns, lookupMergedD_mergeAllRuns,
      lookupMergedD_mergeAllRuns, List.flatten_append, List.filter_append,
      mergeFile_append]

/-- Witness for C1 at a concrete pair of runs: swapping two runs and
splitting them into two merged halves both reproduce the counts. -/
theorem claim_C1_merge_comm_assoc_witness :
    fileCounts (lookupMergedD (mergeAllRuns [[runA], [runB]]) "lib/App.pm") =
      fileCounts (lookupMergedD (mergeAllRuns [[runB], [runA]]) "lib/App.pm") ∧
    fileCounts (lookupMergedD (mergeAllRuns ([[runA]] ++ [[runB]])) "lib/App.pm") =
      fileCounts (combineMerged (lookupMergedD (mergeAllRuns [[runA]]) "lib/App.pm")
        (lookupMergedD (mergeAllRuns [[runB]]) "lib/App.pm")) :=
  claim_C1_merge_comm_assoc [[runA], [runB]] [[runB], [runA]] [[runA]] [[runB]]
    (List.Perm.swap [runB] [runA] []) "lib/App.pm"

/-- C2: the merge sums hit counts positionally and then counts: statement
total is the number of observed positions and a position is covered iff its
summed count is positive; each branch position contributes 2 to the total
and each arm with positive summed count contributes 1 to covered.  In
particular statement hits `[1,0]` merged with `[0,2]` give 2 covered of 2
total, and branch pair `(2,0)` merged with `(0,1)` gives 2 covered of 2
total. -/
theorem claim_C2_positional_counts (runs : List SingleRunData) :
    (∀ i, (mergeFile runs).stmt.getD i 0 = sumStmtHits runs i) ∧
    (fileCounts (mergeFile runs)).stmtTotal = (mergeFile runs).stmt.length ∧
    (fileCounts (mergeFile runs)).stmtCovered =
      (List.range (mergeFile runs).stmt.length).countP
        (fun i => decide (0 < sumStmtHits runs i)) ∧
    (fileCounts (mergeFile runs)).branchTotal = 2 * (mergeFile runs).branch.length ∧
    (fileCounts (mergeFile runs)).branchCovered =
      ((List.range (mergeFile runs).branch.length).map (fun i =>
        (if 0 < sumBranchTrue runs i then 1 else 0)
          + (if 0 < sumBranchFalse runs i then 1 else 0))).sum ∧
    (fileCounts (mergeFile [runA, runB])).stmtCovered = 2 ∧
    (fileCounts (mergeFile [runA, runB])).stmtTotal = 2 ∧
    (fileCounts (mergeFile [runA, runB])).branchCovered = 2 ∧
    (fileCounts (mergeFile [runA, runB])).branchTotal = 2 := by
  refine ⟨getD_mergeFile_stmt runs, rfl, ?_, rfl, ?_, by decide, by decide, by decide, by decide⟩
  · show (mergeFile runs).stmt.countP (fun h => decide (0 < h)) = _
    rw [countP_eq_countP_range]
    simp only [getD_mergeFile_stmt]
  · show branchCoveredCount (mergeFile runs).branch = _
    rw [branchCoveredCount_eq_range]
    simp only [getD_mergeFile_branch]

/-- C6: in the merged per-file counts, covered never exceeds total in any
category, and the reported cell for a zero total is `"n/a"` (never a
percentage obtained by division). -/
theorem claim_C6_covered_le_total (runs : List SingleRunData) :
    (fileCounts (mergeFile runs)).stmtCovered ≤ (fileCounts (mergeFile runs)).stmtTotal ∧
    (fileCounts (mergeFile runs)).branchCovered ≤ (fileCounts (mergeFile runs)).branchTotal ∧
    (fileCounts (mergeFile runs)).condCovered ≤ (fileCounts (mergeFile runs)).condTotal ∧
    (fileCounts (mergeFile runs)).subCovered ≤ (fileCounts (mergeFile runs)).subTotal ∧
    (∀ covered : Nat, formatCoverage covered 0 = none) := by
  refine ⟨List.countP_le_length _, branchCoveredCount_le _, condCoveredCount_le _,
    List.countP_le_length _, fun covered => rfl⟩

/-- C8: the uncovered-line list of a merged file contains exactly the
resolved line numbers of statement positions whose summed hit count is
zero; resolution uses the structure mapping when the index is within it and
falls back to `index + 1` otherwise (in particular whenever no structure
entry exists). -/
theorem claim_C8_uncovered_lines (runs : List SingleRunData) (stmtLines : List Int)
    (hnn : ∀ r ∈ runs, ∀ x ∈ r.Statement, 0 ≤ x) :
    (∀ l, l ∈ uncoveredLines (mergeFile runs).stmt stmtLines ↔
      ∃ i, i < (mergeFile runs).stmt.length ∧ sumStmtHits runs i = 0 ∧
        resolveLine stmtLines i = l) ∧
    (∀ i, ∀ h : i < stmtLines.length, resolveLine stmtLines i = stmtLines.get ⟨i, h⟩) ∧
    (∀ i, stmtLines.length ≤ i → resolveLine stmtLines i = (i : Int) + 1) := by
  refine ⟨?_, ?_, ?_⟩
  · intro l
    rw [uncoveredLines, List.mem_filterMap]
    constructor
    · rintro ⟨i, hi, hsome⟩
      rw [List.mem_range] at hi
      by_cases hpos : 0 < (mergeFile runs).stmt.getD i 0
      · rw [if_pos hpos] at hsome
        exact absurd hsome (by simp)
      · rw [if_neg hpos] at hsome
        refine ⟨i, hi, ?_, Option.some.inj hsome⟩
        rw [getD_mergeFile_stmt] at hpos
        have := sumStmtHits_nonneg hnn i
        omega
    · rintro ⟨i, hi, hzero, hres⟩
      refine ⟨i, List.mem_range.mpr hi, ?_⟩
      rw [if_neg, hres]
      rw [getD_mergeFile_stmt, hzero]
      omega
  · intro i h
    rw [resolveLine]
    rw [List.getElem?_eq_getElem h]
    rfl
  · intro i h
    rw [resolveLine]
    rw [List.getElem?_eq_none h]

/-- Witness for C8: for the two example runs (all hits non-negative) and a
structure map covering only position 0, no line is uncovered after the
merge, position 0 resolves through the map and position 1 falls back. -/
theorem claim_C8_uncovered_lines_witness :
    ((∀ l, l ∈ uncoveredLines (mergeFile [runA, runB]).stmt [(7 : Int)] ↔
      ∃ i, i < (mergeFile [runA, runB]).stmt.length ∧ sumStmtHits [runA, runB] i = 0 ∧
        resolveLine [(7 : Int)] i = l) ∧
    (∀ i, ∀ h : i < [(7 : Int)].length, resolveLine [(7 : Int)] i = [(7 : Int)].get ⟨i, h⟩) ∧
    (∀ i, [(7 : Int)].length ≤ i → resolveLine [(7 : Int)] i = (i : Int) + 1)) ∧
    uncoveredLines (mergeFile [runA, runB]).stmt [(7 : Int)] = [] ∧
    resolveLine [(7 : Int)] 0 = 7 ∧ resolveLine [(7 : Int)] 1 = 2 :=
  ⟨claim_C8_uncovered_lines [runA, runB] [(7 : Int)] (by decide),
    by decide, by decide, by decide⟩

/-- C10: merging two runs of mismatched lengths is total: every merged
vector has the maximum of the two lengths (position-wise for condition
vectors) and every position is the element-wise sum of the two runs'
counts, the missing entries read as zero. -/
theorem claim_C10_mismatched_lengths (r₁ r₂ : SingleRunData) :
    (mergeFile [r₁, r₂]).stmt.length = max r₁.Statement.length r₂.Statement.length ∧
    (mergeFile [r₁, r₂]).branch.length = max r₁.Branch.length r₂.Branch.length ∧
    (mergeFile [r₁, r₂]).sub.length = max r₁.Sub.length r₂.Sub.length ∧
    (mergeFile [r₁, r₂]).cond.length = max r₁.Condition.length r₂.Condition.length ∧
    (∀ i, ((mergeFile [r₁, r₂]).cond.getD i []).length =
      max (r₁.Condition.getD i []).length (r₂.Condition.getD i []).length) ∧
    (∀ i, (mergeFile [r₁, r₂]).stmt.getD i 0 =
      r₁.Statement.getD i 0 + r₂.Statement.getD i 0) ∧
    (∀ i, (mergeFile [r₁, r₂]).branch.getD i (0, 0) =
      ((r₁.Branch.getD i (0, 0)).1 + (r₂.Branch.getD i (0, 0)).1,
       (r₁.Branch.getD i (0, 0)).2 + (r₂.Branch.getD i (0, 0)).2)) ∧
    (∀ i, (mergeFile [r₁, r₂]).sub.getD i 0 = r₁.Sub.getD i 0 + r₂.Sub.getD i 0) ∧
    (∀ i j, ((mergeFile [r₁, r₂]).cond.getD i []).getD j 0 =
      (r₁.Condition.getD i []).getD j 0 + (r₂.Condition.getD i []).getD j 0) := by
  have key : mergeFile [r₁, r₂] = combineMerged (toMerged r₁) (toMerged r₂) := by
    rw [mergeFile_cons, mergeFile_cons]
    have : mergeFile ([] : List SingleRunData) = emptyMerged := rfl
    rw [this, combineMerged_empty_right]
  refine ⟨?_, ?_, ?_, ?_, ?_, ?_, ?_, ?_, ?_⟩
  · rw [key]
    exact length_addVec r₁.Statement r₂.Statement
  · rw [key]
    exact length_addPairVec r₁.Branch r₂.Branch
  · rw [key]
    exact length_addVec r₁.Sub r₂.Sub
  · rw [key]
    exact length_addCondVec r₁.Condition r₂.Condition
  · intro i
    rw [key]
    show ((addCondVec r₁.Condition r₂.Condition).getD i []).length = _
    rw [getD_addCondVec, length_addVec]
  · intro i
    rw [key]
    exact getD_addVec r₁.Statement r₂.Statement i
  · intro i
    rw [key]
    exact getD_addPairVec r₁.Branch r₂.Branch i
  · intro i
    rw [key]
    exact getD_addVec r₁.Sub r₂.Sub i
  · intro i j
    rw [key]
    show ((addCondVec r₁.Condition r₂.Condition).getD i []).getD j 0 = _
    rw [getD_addCondVec]
    exact getD_addVec (r₁.Condition.getD i []) (r₂.Condition.getD i []) j

/-! ### Example reports -/

/-- A summary with all-zero fields, as in a freshly constructed `Report`. -/
def emptySummary : CoverageSummary :=
  { Statement := 0, Branch := 0, Condition := 0, Subroutine := 0, Combined := 0
    TotalFiles := 0, CoveredFiles := 0
    Normalized := false, ConditionsAbsorbed := false, SubroutinesAbsorbed := false }

/-- A file with `covered` of `total` statements and nothing else. -/
def stmtOnlyFile (path : String) (covered total : Nat) : FileCoverage :=
  { Path := path
    Statements := { Covered := covered, Total := total, Percent := 0
                    Uncovered := [], lines := [] }
    Branches := { Covered := 0, Total := 0, Percent := 0 }
    Conditions := { Covered := 0, Total := 0, Percent := 0 }
    Subroutines := { Covered := 0, Total := 0, Percent := 0 } }

/-- Two files with 10/20 and 15/20 covered statements. -/
def reportAB : Report :=
  { Files := [stmtOnlyFile "A.pm" 10 20, stmtOnlyFile "B.pm" 15 20]
    Summary := emptySummary }

/-- Two files with 1/1 and 0/3 covered statements (unequal totals, so the
pooled percentage differs from the mean of the per-file percentages). -/
def reportCD : Report :=
  { Files := [stmtOnlyFile "C.pm" 1 1, stmtOnlyFile "D.pm" 0 3]
    Summary := emptySummary }

/-- One file with 1/2 covered statements and 2/2 covered conditions. -/
def reportQ : Report :=
  { Files := [{ Path := "Q.pm"
                Statements := { Covered := 1, Total := 2, Percent := 0
                                Uncovered := [], lines := [] }
                Branches := { Covered := 0, Total := 0, Percent := 0 }
                Conditions := { Covered := 2, Total := 2, Percent := 0 }
                Subroutines := { Covered := 0, Total := 0, Percent := 0 } }]
    Summary := emptySummary }

/-- The configuration `ParseNormalizationModes` produces for `"sonarqube"`. -/
def sonarConfig : NormalizationConfig :=
  { Modes := ["sonarqube"], ConditionsToBranch := true, SubroutinesToStmt := false
    SonarQubeStyle := true, SimpleMode := false }

/-! ### Claims about the report summary -/

theorem calcFilePercents_stmtTotal (fc : FileCoverage) :
    (calcFilePercents fc).Statements.Total = fc.Statements.Total := rfl
theorem calcFilePercents_stmtCovered (fc : FileCoverage) :
    (calcFilePercents fc).Statements.Covered = fc.Statements.Covered := rfl

theorem sumStmtTotal_calc (files : List FileCoverage) :
    sumStmtTotal (files.map calcFilePercents) = sumStmtTotal files := by
  induction files with
  | nil => rfl
  | cons f t ih => simp [sumStmtTotal, calcFilePercents] at ih ⊢; omega

theorem sumStmtCovered_calc (files : List FileCoverage) :
    sumStmtCovered (files.map calcFilePercents) = sumStmtCovered files := by
  induction files with
  | nil => rfl
  | cons f t ih => simp [sumStmtCovered, calcFilePercents] at ih ⊢; omega

theorem sumBranchTotal_calc (files : List FileCoverage) :
    sumBranchTotal (files.map calcFilePercents) = sumBranchTotal files := by
  induction files with
  | nil => rfl
  | cons f t ih => simp [sumBranchTotal, calcFilePercents] at ih ⊢; omega

theorem sumBranchCovered_calc (files : List FileCoverage) :
    sumBranchCovered (files.map calcFilePercents) = sumBranchCovered files := by
  induction files with
  | nil => rfl
  | cons f t ih => simp [sumBranchCovered, calcFilePercents] at ih ⊢; omega

theorem sumCondTotal_calc (files : List FileCoverage) :
    sumCondTotal (files.map calcFilePercents) = sumCondTotal files := by
  induction files with
  | nil => rfl
  | cons f t ih => simp [sumCondTotal, calcFilePercents] at ih ⊢; omega

theorem sumCondCovered_calc (files : List FileCoverage) :
    sumCondCovered (files.map calcFilePercents) = sumCondCovered files := by
  induction files with
  | nil => rfl
  | cons f t ih => simp [sumCondCovered, calcFilePercents] at ih ⊢; omega

theorem sumSubTotal_calc (files : List FileCoverage) :
    sumSubTotal (files.map calcFilePercents) = sumSubTotal files := by
  induction files with
  | nil => rfl
  | cons f t ih => simp [sumSubTotal, calcFilePercents] at ih ⊢; omega

theorem sumSubCovered_calc (files : List FileCoverage) :
    sumSubCovered (files.map calcFilePercents) = sumSubCovered files := by
  induction files with
  | nil => rfl
  | cons f t ih => simp [sumSubCovered, calcFilePercents] at ih ⊢; omega

/-- C7: each aggregate summary percentage is the pooled percentage — the
sum of covered across all files over the sum of total across all files,
times 100 — not the arithmetic mean of per-file percentages.  The files
10/20 and 15/20 pool to 25/40 = 62.5%, and on unequal totals (1/1 and 0/3)
the pooled value 25% differs from the per-file mean 50%. -/
theorem claim_C7_pooled_summary (r : Report) :
    (0 < sumStmtTotal r.Files →
      (calculateSummary r).Summary.Statement =
        (sumStmtCovered r.Files : Rat) / (sumStmtTotal r.Files : Rat) * 100) ∧
    (0 < sumBranchTotal r.Files →
      (calculateSummary r).Summary.Branch =
        (sumBranchCovered r.Files : Rat) / (sumBranchTotal r.Files : Rat) * 100) ∧
    (0 < sumCondTotal r.Files →
      (calculateSummary r).Summary.Condition =
        (sumCondCovered r.Files : Rat) / (sumCondTotal r.Files : Rat) * 100) ∧
    (0 < sumSubTotal r.Files →
      (calculateSummary r).Summary.Subroutine =
        (sumSubCovered r.Files : Rat) / (sumSubTotal r.Files : Rat) * 100) ∧
    (calculateSummary reportAB).Summary.Statement = 125 / 2 ∧
    ((25 : Rat) / 40 * 100 = 125 / 2) ∧
    (calculateSummary reportCD).Summary.Statement = 25 ∧
    ((pct 1 1 + pct 0 3) / 2 = 50) ∧
    ((25 : Rat) ≠ 50) := by
  refine ⟨?_, ?_, ?_, ?_,
    by norm_num [calculateSummary, reportAB, stmtOnlyFile, emptySummary, sumStmtTotal,
      sumStmtCovered, calcFilePercents, pct],
    by norm_num,
    by norm_num [calculateSummary, reportCD, stmtOnlyFile, emptySummary, sumStmtTotal,
      sumStmtCovered, calcFilePercents, pct],
    by norm_num [pct],
    by norm_num⟩
  · intro h
    show (if 0 < sumStmtTotal (r.Files.map calcFilePercents) then _ else _) = _
    rw [sumStmtTotal_calc, if_pos h, sumStmtCovered_calc]
    rfl
  · intro h
    show (if 0 < sumBranchTotal (r.Files.map calcFilePercents) then _ else _) = _
    rw [sumBranchTotal_calc, if_pos h, sumBranchCovered_calc]
    rfl
  · intro h
    show (if 0 < sumCondTotal (r.Files.map calcFilePercents) then _ else _) = _
    rw [sumCondTotal_calc, if_pos h, sumCondCovered_calc]
    rfl
  · intro h
    show (if 0 < sumSubTotal (r.Files.map calcFilePercents) then _ else _) = _
    rw [sumSubTotal_calc, if_pos h, sumSubCovered_calc]
    rfl

/-- Witness for C7: on the 10/20, 15/20 report the statement summary is the
pooled 25/40·100 = 62.5. -/
theorem claim_C7_pooled_summary_witness :
    (calculateSummary reportAB).Summary.Statement =
      (sumStmtCovered reportAB.Files : Rat) / (sumStmtTotal reportAB.Files : Rat) * 100 :=
  (claim_C7_pooled_summary reportAB).1 (by decide)

/-- C3 (code divergence): in sonarqube mode the exposed combined percentage
is NOT computed from the pre-normalization condition and statement totals:
the absorption zeroes the condition counts before `recalculateSummary`
computes `Combined`, so for a report with 1/2 statements and 2/2 conditions
the pre-normalization combined value is (2+1)/(2+2)·100 = 75 while the
normalized report exposes 1/2·100 = 50. -/
theorem claim_C3_sonarqube_combined_bug :
    ParseNormalizationModes "sonarqube" = Except.ok sonarConfig ∧
    (calculateSummary reportQ).Summary.Combined = 75 ∧
    (Normalize (calculateSummary reportQ) sonarConfig).Summary.Combined = 50 ∧
    (50 : Rat) ≠ 75 := by
  refine ⟨rfl, ?_, ?_, by norm_num⟩
  · norm_num [calculateSummary, reportQ, emptySummary, sumStmtTotal, sumStmtCovered,
      sumCondTotal, sumCondCovered, calcFilePercents, pct]
  · norm_num [Normalize, recalculateSummary, calculateSummary, reportQ, sonarConfig,
      emptySummary, sumStmtTotal, sumStmtCovered, sumCondTotal, sumCondCovered,
      sumBranchTotal, sumBranchCovered, sumSubTotal, sumSubCovered,
      calcFilePercents, condToBranchFile, pct]

/-! ### Idempotence of normalization -/

/-- The per-file effect of one `Normalize` pass: the three absorption steps
in the order the Go code applies them. -/
def normFile (c : NormalizationConfig) (fc : FileCoverage) : FileCoverage :=
  let fc := if c.ConditionsToBranch then condToBranchFile fc else fc
  let fc := if c.SubroutinesToStmt then subToStmtFile fc else fc
  if c.SimpleMode then simpleFile fc else fc

/-- The summary-flag effect of one `Normalize` pass. -/
def normSummaryFlags (c : NormalizationConfig) (s : CoverageSummary) : CoverageSummary :=
  { s with
    Normalized := true
    ConditionsAbsorbed :=
      if c.ConditionsToBranch || c.SimpleMode then true else s.ConditionsAbsorbed
    SubroutinesAbsorbed :=
      if c.SubroutinesToStmt || c.SimpleMode then true else s.SubroutinesAbsorbed }

theorem condToBranchFile_idem (fc : FileCoverage) :
    condToBranchFile (condToBranchFile fc) = condToBranchFile fc := by
  by_cases h : 0 < fc.Branches.Total + fc.Conditions.Total <;>
    simp [condToBranchFile, h]

theorem subToStmtFile_idem (fc : FileCoverage) :
    subToStmtFile (subToStmtFile fc) = subToStmtFile fc := by
  by_cases h : 0 < fc.Statements.Total + fc.Subroutines.Total <;>
    simp [subToStmtFile, h]

theorem simpleFile_idem (fc : FileCoverage) :
    simpleFile (simpleFile fc) = simpleFile fc := rfl

theorem condToBranchFile_simpleFile (fc : FileCoverage) :
    condToBranchFile (simpleFile fc) = simpleFile fc := by
  simp [condToBranchFile, simpleFile]

theorem condToBranch_subToStmt_comm (fc : FileCoverage) :
    condToBranchFile (subToStmtFile fc) = subToStmtFile (condToBranchFile fc) := rfl

theorem subToStmt_simple_subToStmt (fc : FileCoverage) :
    subToStmtFile (simpleFile (subToStmtFile fc)) = simpleFile (subToStmtFile fc) := by
  by_cases h : 0 < fc.Statements.Total + fc.Subroutines.Total <;>
    simp [subToStmtFile, simpleFile, h]

theorem normFile_idem (c : NormalizationConfig) (fc : FileCoverage) :
    normFile c (normFile c fc) = normFile c fc := by
  rcases hc : c.ConditionsToBranch <;> rcases hu : c.SubroutinesToStmt <;>
    rcases hs : c.SimpleMode <;>
    simp [normFile, hc, hu, hs] <;>
    first
    | rfl
    | exact subToStmtFile_idem fc
    | exact subToStmt_simple_subToStmt fc
    | exact condToBranchFile_idem fc
    | rw [condToBranchFile_simpleFile, simpleFile_idem]
    | rw [condToBranch_subToStmt_comm, subToStmtFile_idem, condToBranchFile_idem]

theorem map_normFile_idem (c : NormalizationConfig) (fs : List FileCoverage) :
    (fs.map (normFile c)).map (normFile c) = fs.map (normFile c) := by
  induction fs with
  | nil => rfl
  | cons f t ih => simp only [List.map_cons, normFile_idem, List.map_cons] at ih ⊢; rw [ih]

theorem recalculateSummary_Files (r : Report) :
    (recalculateSummary r).Files = r.Files := rfl

theorem normFile_funext (c : NormalizationConfig) :
    normFile c = fun fc =>
      (fun fc2 => if c.SimpleMode then simpleFile fc2 else fc2)
        ((fun fc1 => if c.SubroutinesToStmt then subToStmtFile fc1 else fc1)
          ((fun fc0 => if c.ConditionsToBranch then condToBranchFile fc0 else fc0) fc)) := rfl

/-- One `Normalize` pass (for a non-empty mode list) is the per-file map
followed by the flag update and the summary recalculation. -/
theorem Normalize_eq_normFile (r : Report) (c : NormalizationConfig)
    (h : ¬ c.Modes = []) :
    Normalize r c = recalculateSummary
      { Files := r.Files.map (normFile c)
        Summary := normSummaryFlags c r.Summary } := by
  rcases hc : c.ConditionsToBranch <;> rcases hu : c.SubroutinesToStmt <;>
    rcases hs : c.SimpleMode <;>
    simp [Normalize, h, hc, hu, hs, normFile_funext, normSummaryFlags, List.map_map,
      Function.comp] <;>
    rfl

/-- Re-normalizing the summary of an already recalculated, flag-updated
report changes nothing: the flags are already set and the percentages are
recomputed from the same files. -/
theorem recalc_flags_twice (c : NormalizationConfig) (F : List FileCoverage)
    (s : CoverageSummary) :
    recalculateSummary
      { Files := F
        Summary := normSummaryFlags c
          (recalculateSummary
            { Files := F, Summary := normSummaryFlags c s }).Summary } =
    recalculateSummary { Files := F, Summary := normSummaryFlags c s } := by
  cases s
  by_cases h1 : (c.ConditionsToBranch || c.SimpleMode) = true <;>
    by_cases h2 : (c.SubroutinesToStmt || c.SimpleMode) = true <;>
    simp [recalculateSummary, normSummaryFlags, h1, h2]

/-- C5: normalization is idempotent, and normalizing with an empty mode set
is a no-op. -/
theorem claim_C5_normalize_idempotent :
    (∀ (r : Report) (c : NormalizationConfig),
      Normalize (Normalize r c) c = Normalize r c) ∧
    (∀ (r : Report) (c : NormalizationConfig), c.Modes = [] → Normalize r c = r) := by
  constructor
  · intro r c
    by_cases hm : c.Modes = []
    · simp [Normalize, hm]
    · rw [Normalize_eq_normFile r c hm, Normalize_eq_normFile _ c hm]
      simp only [recalculateSummary_Files, map_normFile_idem]
      exact recalc_flags_twice c (r.Files.map (normFile c)) r.Summary
  · exact fun r c hm => by simp [Normalize, hm]

/-- Witness for C5: re-normalizing the sonarqube-normalized example report
is a no-op, and normalizing with the empty mode set leaves it unchanged. -/
theorem claim_C5_normalize_idempotent_witness :
    Normalize (Normalize reportQ sonarConfig) sonarConfig =
      Normalize reportQ sonarConfig ∧
    Normalize reportQ emptyNormalizationConfig = reportQ :=
  ⟨claim_C5_normalize_idempotent.1 reportQ sonarConfig,
   claim_C5_normalize_idempotent.2 reportQ emptyNormalizationConfig rfl⟩

/-! ### Ordering of test execution and normalization-mode validation -/

/-- C4 counterexample: with a malformed `--normalize` value the driver still
executes every discovered test; the fatal error is raised only afterwards.
On one test file and the value `"bogus"` the trace starts with the test
execution and ends with the error. -/
theorem claim_C4_counterexample :
    runCoverageTrace true ["t/basic.t"] "bogus" =
      [RunEvent.testExecuted "t/basic.t",
       RunEvent.fatalError ("invalid --normalize value: "
         ++ "unknown normalization mode: bogus"
         ++ " (valid: conditions-to-branches, subroutines-to-statements, sonarqube, simple)")] ∧
    RunEvent.testExecuted "t/basic.t" ∈ runCoverageTrace true ["t/basic.t"] "bogus" := by
  constructor
  · rfl
  · have h : runCoverageTrace true ["t/basic.t"] "bogus" =
        [RunEvent.testExecuted "t/basic.t",
         RunEvent.fatalError ("invalid --normalize value: "
           ++ "unknown normalization mode: bogus"
           ++ " (valid: conditions-to-branches, subroutines-to-statements, sonarqube, simple)")] := rfl
    rw [h]
    exact List.mem_cons_self _ _

/-- C4 (amended): a malformed normalization-mode name is fatal with a clear
error message, but the validation happens only when the report is
normalized, after every discovered test has been executed: the trace is all
test executions followed by the fatal error. -/
theorem claim_C4_normalize_validated_after_tests
    (testFiles : List String) (normalize : String) (e : String)
    (hfiles : testFiles ≠ [])
    (herr : ParseNormalizationModes normalize = .error e) :
    runCoverageTrace true testFiles normalize =
      testFiles.map RunEvent.testExecuted ++
        [RunEvent.fatalError ("invalid --normalize value: " ++ e)] := by
  have hne : ¬ normalize = "" := by
    intro h
    rw [h] at herr
    simp [ParseNormalizationModes] at herr
  simp [runCoverageTrace, hfiles, hne, herr]

/-- Witness for the amended C4 at one test file and the value `"bogus"`. -/
theorem claim_C4_normalize_validated_after_tests_witness :
    runCoverageTrace true ["t/basic.t"] "bogus" =
      (["t/basic.t"].map RunEvent.testExecuted) ++
        [RunEvent.fatalError ("invalid --normalize value: "
          ++ ("unknown normalization mode: bogus"
            ++ " (valid: conditions-to-branches, subroutines-to-statements, sonarqube, simple)"))] :=
  claim_C4_normalize_validated_after_tests ["t/basic.t"] "bogus"
    ("unknown normalization mode: bogus"
      ++ " (valid: conditions-to-branches, subroutines-to-statements, sonarqube, simple)")
    (by simp) rfl

/-! ### The scope selector -/

theorem dropWhile_head_not {p : Char → Bool} :
    ∀ (l : List Char) (c : Char) (t : List Char), l.dropWhile p = c :: t → p c = false := by
  intro l
  induction l with
  | nil =>
    intro c t h
    simp [List.dropWhile] at h
  | cons a l ih =>
    intro c t h
    rw [List.dropWhile_cons] at h
    by_cases hp : p a = true
    · rw [if_pos hp] at h
      exact ih c t h
    · rw [if_neg hp] at h
      cases h
      simpa using hp

theorem afterLastSep_no_sep (l : List Char) : ∀ ch ∈ afterLastSep l, ¬ ch = '/' := by
  intro ch hch
  rw [afterLastSep, List.mem_reverse] at hch
  have := List.mem_takeWhile_imp hch
  simpa using this

theorem afterLastSep_of_no_sep (l : List Char) (h : ∀ ch ∈ l, ¬ ch = '/') :
    afterLastSep l = l := by
  rw [afterLastSep, List.takeWhile_eq_self_iff.mpr, List.reverse_reverse]
  intro ch hch
  simpa using h ch (List.mem_reverse.mp hch)

theorem dropTrailingSep_of_no_sep (l : List Char) (h : ∀ ch ∈ l, ¬ ch = '/') :
    dropTrailingSep l = l := by
  rw [dropTrailingSep, List.dropWhile_eq_self_iff.mpr, List.reverse_reverse]
  intro hl
  have hmem : l.reverse.get ⟨0, hl⟩ ∈ l :=
    List.mem_reverse.mp (List.get_mem l.reverse 0 hl)
  simpa using h _ hmem

theorem afterLastSep_ne_nil (l : List Char) (hne : l ≠ [])
    (hlast : ∀ t : List Char, ∀ c : Char, l.reverse = c :: t → ¬ c = '/') :
    afterLastSep l ≠ [] := by
  rw [afterLastSep]
  cases hrev : l.reverse with
  | nil =>
    exact absurd (by simpa using congrArg List.reverse hrev) hne
  | cons c t =>
    rw [List.takeWhile_cons]
    rw [if_pos (by simpa using hlast t c hrev)]
    simp

/-- `filepath.Base` is the identity on a non-empty name that contains no
path separator. -/
theorem filepathBase_of_no_sep (b : List Char) (hb : ¬ b = [])
    (hs : ∀ ch ∈ b, ¬ ch = '/') :
    filepathBase (String.mk b) = String.mk b := by
  rw [filepathBase]
  rw [if_neg (by simpa [String.ext_iff] using hb)]
  show (if dropTrailingSep b = [] then "/" else String.mk (afterLastSep (dropTrailingSep b))) = _
  rw [dropTrailingSep_of_no_sep b hs, if_neg hb, afterLastSep_of_no_sep b hs]

theorem filepathBase_idem (p : String) :
    filepathBase (filepathBase p) = filepathBase p := by
  by_cases hp : p = ""
  · rw [hp]
    rfl
  · have hbase : filepathBase p =
        (if dropTrailingSep p.data = [] then "/"
         else String.mk (afterLastSep (dropTrailingSep p.data))) := by
      rw [filepathBase, if_neg hp]
    by_cases hq : dropTrailingSep p.data = []
    · rw [hbase, if_pos hq]
      rfl
    · rw [hbase, if_neg hq]
      refine filepathBase_of_no_sep _ ?_ (afterLastSep_no_sep _)
      refine afterLastSep_ne_nil _ hq ?_
      intro t c hrev
      have hrev2 : p.data.reverse.dropWhile (fun ch => decide (ch = '/')) = c :: t := by
        simpa [dropTrailingSep, List.reverse_reverse] using hrev
      have := dropWhile_head_not p.data.reverse c t hrev2
      simpa using this

/-- C9: the scope selector is a pure function of the test file name: it
depends only on the basename, requires the `.t` extension, rejects names
starting with a digit, truncates at the first underscore, requires an
uppercase first letter, and replaces every hyphen by `::` — with the four
concrete examples of the specification. -/
theorem claim_C9_extract_scope :
    extractModuleFromTestFile "Module-Install-Something.t" = "Module::Install::Something" ∧
    extractModuleFromTestFile "00-load.t" = "" ∧
    extractModuleFromTestFile "basic.t" = "" ∧
    extractModuleFromTestFile "Module_variant.t" = "Module" ∧
    (∀ p : String, extractModuleFromTestFile p =
      extractModuleFromTestFile (filepathBase p)) ∧
    (∀ base : List Char, endsWithT base = false → extractCore base = []) ∧
    (∀ name : List Char, extractCore (name ++ ['.', 't']) =
      (if digitStart name then []
       else if upperStart (takeUntilUnderscore name) then
         replaceHyphens (takeUntilUnderscore name)
       else [])) := by
  refine ⟨by decide, by decide, by decide, by decide, ?_, ?_, ?_⟩
  · intro p
    rw [extractModuleFromTestFile, extractModuleFromTestFile, filepathBase_idem]
  · intro base h
    simp [extractCore, h]
  · intro name
    have hend : endsWithT (name ++ ['.', 't']) = true := by
      rw [endsWithT, List.reverse_append]
      rfl
    have htake : (name ++ ['.', 't']).take ((name ++ ['.', 't']).length - 2) = name := by
      rw [List.length_append]
      simp [List.take_left]
    simp [extractCore, hend, htake]

/-- Witness for C9: a name without the `.t` suffix maps to no module, and
the result on a path equals the result on its basename. -/
theorem claim_C9_extract_scope_witness :
    extractCore ['R', 'E', 'A', 'D', 'M', 'E'] = [] ∧
    extractModuleFromTestFile "t/App-Utils.t" =
      extractModuleFromTestFile (filepathBase "t/App-Utils.t") :=
  ⟨claim_C9_extract_scope.2.2.2.2.2.1 ['R', 'E', 'A', 'D', 'M', 'E'] (by decide),
   claim_C9_extract_scope.2.2.2.2.1 "t/App-Utils.t"⟩

end Perlcov

